import Mathlib

/-!
RobloxBot trading ledger.

A shallow embedding of the request handlers of `src/server.js`: the four
MongoDB collections become lists of documents held in a `Db` record, every
handler becomes a function from the database, the request body and the clock
to the new database and the response, and every MongoDB primitive the handlers
call (`findOne`, `updateOne` with and without `upsert`, `insertOne`,
`find().sort()`) becomes a list function.

Conventions of the embedding:
* a request field that may be missing is an `Option` (`none` = not sent);
* `new Date()` / `Date.now()` is the argument `now : Nat`;
* an item of `petDetails` is an object with a string `name`;
* the `_id` the driver gives a pending request is the number of documents
  already in the (insert-only) collection.
-/

namespace RobloxBot

/-! ## Data model -/

/-- An item of `petDetails`: the handlers only read `pet.name`. -/
structure Pet where
  name : String
deriving DecidableEq, Repr

/-- The `petCounts` summary sent by clients; the handlers store it untouched. -/
structure PetCounts where
  total : Nat
deriving DecidableEq, Repr

/-- The `type` field of requests and history records. -/
inductive TradeType where
  | deposit
  | withdraw
deriving DecidableEq, Repr

/-- The `status` field of requests and history records. -/
inductive Status where
  | pending
  | completed
  | failed
deriving DecidableEq, Repr

/-- A document of the `users` collection. -/
structure User where
  username : Option String
  createdAt : Nat
deriving DecidableEq, Repr

/-- A document of the `userPetBalances` collection. -/
structure BalanceEntry where
  username : Option String
  petName : String
  count : Int
deriving DecidableEq, Repr

/-- A document of the `pendingTradeRequests` collection. -/
structure PendingTradeRequest where
  id : Nat
  username : Option String
  type : TradeType
  bot : Option String
  petCounts : Option PetCounts
  petDetails : List Pet
  status : Status
  createdAt : Nat
  completedAt : Option Nat
deriving DecidableEq, Repr

/-- A document of the `tradeHistory` collection. -/
structure TradeHistoryRecord where
  username : Option String
  type : TradeType
  petCounts : Option PetCounts
  petDetails : List Pet
  bot : Option String
  status : Status
  timestamp : Nat
deriving DecidableEq, Repr

/-- The database: the four collections the handlers touch. -/
structure Db where
  users : List User
  userPetBalances : List BalanceEntry
  tradeHistory : List TradeHistoryRecord
  pendingTradeRequests : List PendingTradeRequest
deriving DecidableEq, Repr

/-- The database right after `connectToDatabase`: all collections empty. -/
def emptyDb : Db :=
  { users := [], userPetBalances := [], tradeHistory := [], pendingTradeRequests := [] }

/-- Body of `POST /api/deposit` and `POST /api/withdraw`. -/
structure SubmitBody where
  username : Option String
  petCounts : Option PetCounts
  petDetails : Option (List Pet)
  bot : Option String
deriving DecidableEq, Repr

/-- Body of `POST /api/complete-deposit` and `POST /api/complete-withdraw`. -/
structure CompleteBody where
  username : Option String
  success : Bool
  petCounts : Option PetCounts
  petDetails : Option (List Pet)
  bot : Option String
deriving DecidableEq, Repr

/-- What a handler sends back. -/
inductive Response where
  | depositCreated (requestId : Nat)
  | withdrawCreated (requestId : Nat)
  | usernameRequired
  | insufficientPets (petName : String) (availablePets : List (String × Int))
  | serverError
  | depositCompleted
  | withdrawCompleted
deriving DecidableEq, Repr

/-! ## MongoDB primitives used by the handlers -/

/-- JavaScript `!username` for a field that is a string when present. -/
def falsy (username : Option String) : Bool :=
  match username with
  | none => true
  | some s => s == ""

/-- The default bot of the submission handlers (`bot = 'Muhammad6194'`). -/
def defaultBot : String := "Muhammad6194"

/-- The filter `{ username, petName }` on `userPetBalances`. -/
def balanceMatches (username : Option String) (petName : String) (b : BalanceEntry) : Bool :=
  decide (b.username = username) && decide (b.petName = petName)

/-- Result of `userPetBalances.findOne({ username, petName })`. -/
def findOneBalance (bal : List BalanceEntry) (username : Option String) (petName : String) :
    Option BalanceEntry :=
  bal.find? (balanceMatches username petName)

/-- Body of `userPetBalances.updateOne({ username, petName }, { $inc: { count: delta } })`
on the first matching document; `none` when no document matches. -/
def incFirst (username : Option String) (petName : String) (delta : Int) :
    List BalanceEntry → Option (List BalanceEntry)
  | [] => none
  | b :: rest =>
    if balanceMatches username petName b then
      some ({ b with count := b.count + delta } :: rest)
    else
      (incFirst username petName delta rest).map (fun r => b :: r)

/-- The call `userPetBalances.updateOne({ username, petName }, { $inc: { count: delta } },
{ upsert })`: increments the first match; with no match, inserts the document
`{ username, petName, count: delta }` when `upsert` is set and does nothing otherwise. -/
def incBalance (upsert : Bool) (bal : List BalanceEntry) (username : Option String)
    (petName : String) (delta : Int) : List BalanceEntry :=
  match incFirst username petName delta bal with
  | some bal' => bal'
  | none =>
    if upsert then bal ++ [{ username := username, petName := petName, count := delta }]
    else bal

/-- The filter `{ username, type, bot, status: 'pending' }` on `pendingTradeRequests`. -/
def requestMatches (username : Option String) (type : TradeType) (bot : Option String)
    (r : PendingTradeRequest) : Bool :=
  decide (r.username = username) && decide (r.type = type) && decide (r.bot = bot)
    && decide (r.status = Status.pending)

/-- The update `{ $set: { status: success ? 'completed' : 'failed', completedAt: new Date() } }`. -/
def resolve (success : Bool) (now : Nat) (r : PendingTradeRequest) : PendingTradeRequest :=
  { r with status := if success then Status.completed else Status.failed,
           completedAt := some now }

/-- The call `pendingTradeRequests.updateOne({ username, type, bot, status: 'pending' }, ...)`:
resolves the first matching document, and is a no-op when none matches. -/
def updateOneStatus (username : Option String) (type : TradeType) (bot : Option String)
    (success : Bool) (now : Nat) : List PendingTradeRequest → List PendingTradeRequest
  | [] => []
  | r :: rest =>
    if requestMatches username type bot r then resolve success now r :: rest
    else r :: updateOneStatus username type bot success now rest

/-- The call `users.updateOne({ username }, { $setOnInsert: ... }, { upsert: true })`. -/
def upsertUser (users : List User) (username : Option String) (now : Nat) : List User :=
  if users.any (fun u => decide (u.username = username)) then users
  else users ++ [{ username := username, createdAt := now }]

/-- Function `getUserAvailablePets(username)`: entries of the user with `count > 0`. -/
def getUserAvailablePets (db : Db) (username : Option String) : List (String × Int) :=
  (db.userPetBalances.filter (fun b => decide (b.username = username) && decide (0 < b.count))).map
    (fun b => (b.petName, b.count))

/-- The test `!balance || balance.count <= 0` of the withdrawal loop. -/
def insufficient (bal : List BalanceEntry) (username : Option String) (pet : Pet) : Bool :=
  match findOneBalance bal username pet.name with
  | none => true
  | some b => decide (b.count ≤ 0)

/-! ## Handlers -/

/-- Handler `POST /api/deposit`. -/
def submitDeposit (db : Db) (body : SubmitBody) (now : Nat) : Db × Response :=
  if falsy body.username then (db, Response.usernameRequired)
  else
    let users := upsertUser db.users body.username now
    let id := db.pendingTradeRequests.length
    let req : PendingTradeRequest :=
      { id := id, username := body.username, type := TradeType.deposit,
        bot := some (body.bot.getD defaultBot),
        petCounts := some (body.petCounts.getD { total := 0 }),
        petDetails := body.petDetails.getD [],
        status := Status.pending, createdAt := now, completedAt := none }
    ({ db with users := users, pendingTradeRequests := db.pendingTradeRequests ++ [req] },
      Response.depositCreated id)

/-- Handler `POST /api/withdraw`. A missing `petDetails` makes the `for … of`
loop throw, which the handler's `catch` turns into the 500 response. -/
def submitWithdraw (db : Db) (body : SubmitBody) (now : Nat) : Db × Response :=
  match body.petDetails with
  | none => (db, Response.serverError)
  | some petDetails =>
    match petDetails.find? (insufficient db.userPetBalances body.username) with
    | some pet => (db, Response.insufficientPets pet.name (getUserAvailablePets db body.username))
    | none =>
      let req : PendingTradeRequest :=
        { id := db.pendingTradeRequests.length, username := body.username,
          type := TradeType.withdraw,
          bot := some (body.bot.getD defaultBot),
          petCounts := body.petCounts,
          petDetails := petDetails,
          status := Status.pending, createdAt := now, completedAt := none }
      ({ db with pendingTradeRequests := db.pendingTradeRequests ++ [req] },
        Response.withdrawCreated now)

/-- Handler `GET /api/get-pending-requests`: `find({ bot, status: 'pending' })`
followed by `sort({ createdAt: 1 })`. -/
def listPending (db : Db) (bot : Option String) : List PendingTradeRequest :=
  (db.pendingTradeRequests.filter
      (fun r => decide (r.bot = bot) && decide (r.status = Status.pending))).insertionSort
    (fun a b => a.createdAt ≤ b.createdAt)

/-- The loop `for (const pet of petDetails) updateOne(…, { $inc: { count: delta } }, { upsert })`. -/
def adjustAll (upsert : Bool) (delta : Int) (username : Option String)
    (bal : List BalanceEntry) (petDetails : List Pet) : List BalanceEntry :=
  petDetails.foldl (fun acc pet => incBalance upsert acc username pet.name delta) bal

/-- Handler `POST /api/complete-deposit`. -/
def completeDeposit (db : Db) (body : CompleteBody) (now : Nat) : Db × Response :=
  let reqs := updateOneStatus body.username TradeType.deposit body.bot body.success now
    db.pendingTradeRequests
  match body.success, body.petDetails with
  | true, some petDetails =>
    ({ db with
        pendingTradeRequests := reqs,
        userPetBalances := adjustAll true 1 body.username db.userPetBalances petDetails,
        tradeHistory := db.tradeHistory ++
          [{ username := body.username, type := TradeType.deposit, petCounts := body.petCounts,
             petDetails := petDetails, bot := body.bot, status := Status.completed,
             timestamp := now }] },
      Response.depositCompleted)
  | _, _ => ({ db with pendingTradeRequests := reqs }, Response.depositCompleted)

/-- Handler `POST /api/complete-withdraw`: the `$inc` here carries no `upsert` option. -/
def completeWithdraw (db : Db) (body : CompleteBody) (now : Nat) : Db × Response :=
  let reqs := updateOneStatus body.username TradeType.withdraw body.bot body.success now
    db.pendingTradeRequests
  match body.success, body.petDetails with
  | true, some petDetails =>
    ({ db with
        pendingTradeRequests := reqs,
        userPetBalances := adjustAll false (-1) body.username db.userPetBalances petDetails,
        tradeHistory := db.tradeHistory ++
          [{ username := body.username, type := TradeType.withdraw, petCounts := body.petCounts,
             petDetails := petDetails, bot := body.bot, status := Status.completed,
             timestamp := now }] },
      Response.withdrawCompleted)
  | _, _ => ({ db with pendingTradeRequests := reqs }, Response.withdrawCompleted)

/-! ## Sequences of operations -/

/-- One call of a state-changing endpoint, with the clock value it observes. -/
inductive Op where
  | submitDeposit (body : SubmitBody) (now : Nat)
  | submitWithdraw (body : SubmitBody) (now : Nat)
  | completeDeposit (body : CompleteBody) (now : Nat)
  | completeWithdraw (body : CompleteBody) (now : Nat)
deriving DecidableEq, Repr

/-- The database after one operation. -/
def step (db : Db) : Op → Db
  | Op.submitDeposit body now => (submitDeposit db body now).1
  | Op.submitWithdraw body now => (submitWithdraw db body now).1
  | Op.completeDeposit body now => (completeDeposit db body now).1
  | Op.completeWithdraw body now => (completeWithdraw db body now).1

/-- The database after a sequence of operations, oldest first. -/
def run (db : Db) (ops : List Op) : Db :=
  ops.foldl step db

/-- The states a run goes through, the starting state first. -/
def trace (db : Db) : List Op → List Db
  | [] => [db]
  | op :: ops => db :: trace (step db op) ops

/-! ## Observations used by the statements -/

/-- Whether the request stored at position `i` has another status in `b` than in `a`. -/
def statusChanged (i : Nat) (a b : Db) : Bool :=
  match a.pendingTradeRequests[i]?, b.pendingTradeRequests[i]? with
  | some r, some r' => decide (r.status ≠ r'.status)
  | _, _ => false

/-- Number of status changes of the request at position `i` along a list of states. -/
def statusChanges (i : Nat) : List Db → Nat
  | a :: b :: rest => (if statusChanged i a b then 1 else 0) + statusChanges i (b :: rest)
  | _ => 0

/-- Count of `BalanceEntry(u, p)`, taken as 0 when the entry is absent. -/
def balanceOf (bal : List BalanceEntry) (u : Option String) (p : String) : Int :=
  match findOneBalance bal u p with
  | none => 0
  | some b => b.count

/-- Number of items of `petDetails` named `p`. -/
def units (p : String) (petDetails : List Pet) : Nat :=
  petDetails.countP (fun pet => decide (pet.name = p))

/-- Units of `p` in the `petDetails` of all history records of `u` with type `ty`. -/
def historyUnits (hist : List TradeHistoryRecord) (u : Option String) (ty : TradeType)
    (p : String) : Nat :=
  ((hist.filter (fun h => decide (h.username = u) && decide (h.type = ty))).map
    (fun h => units p h.petDetails)).sum

/-- The ledger equation of the data model for one `(u, p)` pair. -/
def ledgerConsistent (db : Db) (u : Option String) (p : String) : Prop :=
  balanceOf db.userPetBalances u p =
    (historyUnits db.tradeHistory u TradeType.deposit p : Int)
      - (historyUnits db.tradeHistory u TradeType.withdraw p : Int)

/-! ## The balance store -/

theorem incFirst_eq_none_iff (u : Option String) (p : String) (d : Int)
    (bal : List BalanceEntry) :
    incFirst u p d bal = none ↔ findOneBalance bal u p = none := by
  induction bal with
  | nil => simp [incFirst, findOneBalance]
  | cons b rest ih =>
    unfold findOneBalance at ih ⊢
    by_cases hb : balanceMatches u p b = true
    · simp [incFirst, hb, List.find?_cons]
    · simp [incFirst, hb, List.find?_cons, ih]

theorem balanceMatches_iff (u : Option String) (p : String) (b : BalanceEntry) :
    balanceMatches u p b = true ↔ b.username = u ∧ b.petName = p := by
  simp [balanceMatches]

theorem balanceOf_cons (b : BalanceEntry) (rest : List BalanceEntry) (u : Option String)
    (p : String) :
    balanceOf (b :: rest) u p = if balanceMatches u p b then b.count else balanceOf rest u p := by
  unfold balanceOf findOneBalance
  by_cases hb : balanceMatches u p b = true
  · simp [List.find?_cons, hb]
  · simp [List.find?_cons, hb]

theorem balanceOf_incFirst (u : Option String) (p : String) (d : Int) (u' : Option String)
    (p' : String) (bal bal' : List BalanceEntry) (h : incFirst u p d bal = some bal') :
    balanceOf bal' u' p' = balanceOf bal u' p' + (if u' = u ∧ p' = p then d else 0) := by
  induction bal generalizing bal' with
  | nil => simp [incFirst] at h
  | cons b rest ih =>
    by_cases hb : balanceMatches u p b = true
    · simp only [incFirst, hb, if_true, Option.some.injEq] at h
      subst h
      rw [balanceOf_cons, balanceOf_cons]
      have hb' := (balanceMatches_iff u p b).1 hb
      by_cases hm : u' = u ∧ p' = p
      · obtain ⟨h1, h2⟩ := hm
        subst h1 h2
        simp [balanceMatches, hb'.1, hb'.2]
      · have hmb : balanceMatches u' p' b = false := by
          cases hc : balanceMatches u' p' b with
          | false => rfl
          | true =>
            have hc' := (balanceMatches_iff u' p' b).1 hc
            exact absurd ⟨hc'.1.symm.trans hb'.1, hc'.2.symm.trans hb'.2⟩ hm
        have hmb2 : balanceMatches u' p' { b with count := b.count + d } = false := hmb
        simp [hmb, hmb2, hm]
    · simp only [incFirst, hb, Bool.false_eq_true, if_false, Option.map_eq_some'] at h
      obtain ⟨r, hr, rfl⟩ := h
      rw [balanceOf_cons, balanceOf_cons, ih r hr]
      by_cases hb2 : balanceMatches u' p' b = true
      · have hb2' := (balanceMatches_iff u' p' b).1 hb2
        have : ¬ (u' = u ∧ p' = p) := by
          rintro ⟨rfl, rfl⟩
          exact hb hb2
        simp [hb2, this]
      · simp [hb2]

theorem isSome_findOne_incFirst (u : Option String) (p : String) (d : Int) (u' : Option String)
    (p' : String) (bal bal' : List BalanceEntry) (h : incFirst u p d bal = some bal') :
    (findOneBalance bal' u' p').isSome = (findOneBalance bal u' p').isSome := by
  induction bal generalizing bal' with
  | nil => simp [incFirst] at h
  | cons b rest ih =>
    by_cases hb : balanceMatches u p b = true
    · simp only [incFirst, hb, if_true, Option.some.injEq] at h
      subst h
      have hmb2 : balanceMatches u' p' { b with count := b.count + d } = balanceMatches u' p' b :=
        rfl
      unfold findOneBalance
      cases hc : balanceMatches u' p' b <;> simp [List.find?_cons, hmb2, hc]
    · simp only [incFirst, hb, Bool.false_eq_true, if_false, Option.map_eq_some'] at h
      obtain ⟨r, hr, rfl⟩ := h
      have := ih r hr
      unfold findOneBalance at this ⊢
      cases hc : balanceMatches u' p' b <;> simp [List.find?_cons, hc, this]

theorem filter_others_incFirst (u : Option String) (p : String) (d : Int)
    (bal bal' : List BalanceEntry) (h : incFirst u p d bal = some bal') :
    bal'.filter (fun e => decide (e.username ≠ u)) =
      bal.filter (fun e => decide (e.username ≠ u)) := by
  induction bal generalizing bal' with
  | nil => simp [incFirst] at h
  | cons b rest ih =>
    by_cases hb : balanceMatches u p b = true
    · simp only [incFirst, hb, if_true, Option.some.injEq] at h
      subst h
      have hb' := (balanceMatches_iff u p b).1 hb
      simp [List.filter_cons, hb'.1]
    · simp only [incFirst, hb, Bool.false_eq_true, if_false, Option.map_eq_some'] at h
      obtain ⟨r, hr, rfl⟩ := h
      rw [List.filter_cons, List.filter_cons, ih r hr]

theorem balanceOf_incBalance_upsert (bal : List BalanceEntry) (u : Option String) (p : String)
    (d : Int) (u' : Option String) (p' : String) :
    balanceOf (incBalance true bal u p d) u' p' =
      balanceOf bal u' p' + (if u' = u ∧ p' = p then d else 0) := by
  unfold incBalance
  cases h : incFirst u p d bal with
  | some bal' => exact balanceOf_incFirst u p d u' p' bal bal' h
  | none =>
    have hn := (incFirst_eq_none_iff u p d bal).1 h
    simp only [if_true]
    by_cases hm : u' = u ∧ p' = p
    · obtain ⟨rfl, rfl⟩ := hm
      unfold balanceOf
      unfold findOneBalance at hn ⊢
      simp [List.find?_append, hn, balanceMatches]
    · unfold balanceOf findOneBalance
      have hmb : balanceMatches u' p' { username := u, petName := p, count := d } = false := by
        cases hc : balanceMatches u' p' { username := u, petName := p, count := d } with
        | false => rfl
        | true =>
          have hc' := (balanceMatches_iff u' p' _).1 hc
          exact absurd ⟨hc'.1.symm, hc'.2.symm⟩ hm
      cases hf : List.find? (balanceMatches u' p') bal <;>
        simp [List.find?_append, hf, hmb, hm]

theorem balanceOf_incBalance_noUpsert (bal : List BalanceEntry) (u : Option String)
    (p : String) (d : Int) (u' : Option String) (p' : String) :
    balanceOf (incBalance false bal u p d) u' p' =
      balanceOf bal u' p' +
        (if u' = u ∧ p' = p ∧ (findOneBalance bal u p).isSome = true then d else 0) := by
  unfold incBalance
  cases h : incFirst u p d bal with
  | some bal' =>
    have hs : (findOneBalance bal u p).isSome = true := by
      cases hf : findOneBalance bal u p with
      | some b => rfl
      | none => rw [(incFirst_eq_none_iff u p d bal).2 hf] at h; cases h
    simp only [balanceOf_incFirst u p d u' p' bal bal' h, hs, and_true]
  | none =>
    have hn := (incFirst_eq_none_iff u p d bal).1 h
    simp [hn]

theorem isSome_findOne_incBalance_noUpsert (bal : List BalanceEntry) (u : Option String)
    (p : String) (d : Int) (u' : Option String) (p' : String) :
    (findOneBalance (incBalance false bal u p d) u' p').isSome =
      (findOneBalance bal u' p').isSome := by
  unfold incBalance
  cases h : incFirst u p d bal with
  | some bal' => exact isSome_findOne_incFirst u p d u' p' bal bal' h
  | none => simp

theorem filter_others_incBalance (upsert : Bool) (bal : List BalanceEntry) (u : Option String)
    (p : String) (d : Int) :
    (incBalance upsert bal u p d).filter (fun e => decide (e.username ≠ u)) =
      bal.filter (fun e => decide (e.username ≠ u)) := by
  unfold incBalance
  cases h : incFirst u p d bal with
  | some bal' => exact filter_others_incFirst u p d bal bal' h
  | none => cases upsert <;> simp [List.filter_append]

theorem units_cons (p : String) (pet : Pet) (rest : List Pet) :
    units p (pet :: rest) = (if pet.name = p then 1 else 0) + units p rest := by
  unfold units
  by_cases h : pet.name = p <;> simp [List.countP_cons, h, Nat.add_comm]

theorem balanceOf_adjustAll_upsert (d : Int) (u : Option String) (bal : List BalanceEntry)
    (D : List Pet) (u' : Option String) (p' : String) :
    balanceOf (adjustAll true d u bal D) u' p' =
      balanceOf bal u' p' + (if u' = u then d * (units p' D : Int) else 0) := by
  induction D generalizing bal with
  | nil => simp [adjustAll, units]
  | cons pet rest ih =>
    have hstep : adjustAll true d u bal (pet :: rest) =
        adjustAll true d u (incBalance true bal u pet.name d) rest := rfl
    rw [hstep, ih, balanceOf_incBalance_upsert, units_cons]
    by_cases hu : u' = u
    · by_cases hp : pet.name = p'
      · subst hp
        subst hu
        simp
        ring
      · have hp' : ¬ p' = pet.name := fun h => hp h.symm
        simp [hu, hp, hp']
    · simp [hu]

theorem filter_others_adjustAll (upsert : Bool) (d : Int) (u : Option String)
    (bal : List BalanceEntry) (D : List Pet) :
    (adjustAll upsert d u bal D).filter (fun e => decide (e.username ≠ u)) =
      bal.filter (fun e => decide (e.username ≠ u)) := by
  induction D generalizing bal with
  | nil => rfl
  | cons pet rest ih =>
    have hstep : adjustAll upsert d u bal (pet :: rest) =
        adjustAll upsert d u (incBalance upsert bal u pet.name d) rest := rfl
    rw [hstep, ih, filter_others_incBalance]

theorem isSome_findOne_adjustAll_noUpsert (d : Int) (u : Option String)
    (bal : List BalanceEntry) (D : List Pet) (u' : Option String) (p' : String) :
    (findOneBalance (adjustAll false d u bal D) u' p').isSome =
      (findOneBalance bal u' p').isSome := by
  induction D generalizing bal with
  | nil => rfl
  | cons pet rest ih =>
    have hstep : adjustAll false d u bal (pet :: rest) =
        adjustAll false d u (incBalance false bal u pet.name d) rest := rfl
    rw [hstep, ih, isSome_findOne_incBalance_noUpsert]

theorem balanceOf_adjustAll_noUpsert (d : Int) (u : Option String) (bal : List BalanceEntry)
    (D : List Pet) (u' : Option String) (p' : String) :
    balanceOf (adjustAll false d u bal D) u' p' =
      balanceOf bal u' p' +
        (if u' = u ∧ (findOneBalance bal u p').isSome = true then d * (units p' D : Int)
          else 0) := by
  induction D generalizing bal with
  | nil => simp [adjustAll, units]
  | cons pet rest ih =>
    have hstep : adjustAll false d u bal (pet :: rest) =
        adjustAll false d u (incBalance false bal u pet.name d) rest := rfl
    rw [hstep, ih, balanceOf_incBalance_noUpsert, units_cons,
      isSome_findOne_incBalance_noUpsert]
    by_cases hu : u' = u
    · by_cases hs : (findOneBalance bal u p').isSome = true
      · by_cases hp : pet.name = p'
        · subst hp
          simp [hu, hs]
          ring
        · have hp' : ¬ p' = pet.name := fun h => hp h.symm
          simp [hu, hs, hp, hp']
      · by_cases hp : pet.name = p'
        · subst hp
          simp [hu, hs]
        · have hp' : ¬ p' = pet.name := fun h => hp h.symm
          simp [hu, hs, hp, hp']
    · simp [hu]

theorem isSome_findOne_incBalance_upsert (bal : List BalanceEntry) (u : Option String)
    (p : String) (d : Int) (u' : Option String) (p' : String) :
    (findOneBalance (incBalance true bal u p d) u' p').isSome =
      ((findOneBalance bal u' p').isSome || decide (u' = u ∧ p' = p)) := by
  unfold incBalance
  cases h : incFirst u p d bal with
  | some bal' =>
    rw [isSome_findOne_incFirst u p d u' p' bal bal' h]
    by_cases hm : u' = u ∧ p' = p
    · obtain ⟨rfl, rfl⟩ := hm
      cases hf : findOneBalance bal u' p' with
      | some b => simp
      | none => rw [(incFirst_eq_none_iff u' p' d bal).2 hf] at h; cases h
    · simp [hm]
  | none =>
    simp only [if_true]
    unfold findOneBalance
    cases hf : List.find? (balanceMatches u' p') bal with
    | some b => simp [List.find?_append, hf]
    | none =>
      by_cases hm : u' = u ∧ p' = p
      · obtain ⟨rfl, rfl⟩ := hm
        simp [List.find?_append, hf, balanceMatches]
      · have hmb : balanceMatches u' p' { username := u, petName := p, count := d } = false := by
          cases hc : balanceMatches u' p' { username := u, petName := p, count := d } with
          | false => rfl
          | true =>
            have hc' := (balanceMatches_iff u' p' _).1 hc
            exact absurd ⟨hc'.1.symm, hc'.2.symm⟩ hm
        simp [List.find?_append, hf, hmb, hm]

theorem isSome_findOne_adjustAll_upsert (d : Int) (u : Option String)
    (bal : List BalanceEntry) (D : List Pet) (p' : String) (h : 0 < units p' D) :
    (findOneBalance (adjustAll true d u bal D) u p').isSome = true := by
  induction D generalizing bal with
  | nil => simp [units] at h
  | cons pet rest ih =>
    have hstep : adjustAll true d u bal (pet :: rest) =
        adjustAll true d u (incBalance true bal u pet.name d) rest := rfl
    rw [hstep]
    by_cases hr : 0 < units p' rest
    · exact ih _ hr
    · have hp : pet.name = p' := by
        by_contra hne
        rw [units_cons] at h
        simp [hne] at h
        exact hr h
      have hkeep : ∀ (E : List Pet) (b : List BalanceEntry),
          (findOneBalance b u p').isSome = true →
            (findOneBalance (adjustAll true d u b E) u p').isSome = true := by
        intro E
        induction E with
        | nil => intro b hb; exact hb
        | cons e es ihe =>
          intro b hb
          have hs : adjustAll true d u b (e :: es) =
              adjustAll true d u (incBalance true b u e.name d) es := rfl
          rw [hs]
          apply ihe
          rw [isSome_findOne_incBalance_upsert, hb]
          rfl
      apply hkeep
      rw [isSome_findOne_incBalance_upsert]
      simp [hp]

/-! ## The pending-request queue -/

theorem updateOneStatus_of_no_match (u : Option String) (ty : TradeType) (bot : Option String)
    (success : Bool) (now : Nat) (reqs : List PendingTradeRequest)
    (h : ∀ r ∈ reqs, requestMatches u ty bot r = false) :
    updateOneStatus u ty bot success now reqs = reqs := by
  induction reqs with
  | nil => rfl
  | cons r rest ih =>
    have hr := h r (List.mem_cons_self r rest)
    have hrest := ih (fun x hx => h x (List.mem_cons_of_mem r hx))
    simp [updateOneStatus, hr, hrest]

/-! ## Completing a deposit -/

/-- C3: a successful `completeDeposit` for `u` with item list `D` raises the balance of
every `(u, p)` by the number of items of `D` named `p` (an absent entry counting as 0 and
being created), leaves the entries of every other user as they were, and appends exactly
one history record, for `u`, of type deposit, status completed and with `petDetails = D`. -/
theorem completeDeposit_success_effect (db : Db) (u bot : Option String)
    (pc : Option PetCounts) (D : List Pet) (now : Nat) :
    (∀ p, balanceOf (completeDeposit db
          { username := u, success := true, petCounts := pc, petDetails := some D, bot := bot }
          now).1.userPetBalances u p
        = balanceOf db.userPetBalances u p + (units p D : Int)) ∧
    (∀ p, 0 < units p D → (findOneBalance (completeDeposit db
          { username := u, success := true, petCounts := pc, petDetails := some D, bot := bot }
          now).1.userPetBalances u p).isSome = true) ∧
    (completeDeposit db
          { username := u, success := true, petCounts := pc, petDetails := some D, bot := bot }
          now).1.userPetBalances.filter (fun e => decide (e.username ≠ u))
        = db.userPetBalances.filter (fun e => decide (e.username ≠ u)) ∧
    (completeDeposit db
          { username := u, success := true, petCounts := pc, petDetails := some D, bot := bot }
          now).1.tradeHistory
        = db.tradeHistory ++
            [{ username := u, type := TradeType.deposit, petCounts := pc, petDetails := D,
               bot := bot, status := Status.completed, timestamp := now }] := by
  refine ⟨?_, ?_, ?_, rfl⟩
  · intro p
    show balanceOf (adjustAll true 1 u db.userPetBalances D) u p = _
    rw [balanceOf_adjustAll_upsert]
    simp
  · intro p hp
    exact isSome_findOne_adjustAll_upsert 1 u db.userPetBalances D p hp
  · exact filter_others_adjustAll true 1 u db.userPetBalances D

theorem requestMatches_iff (u : Option String) (ty : TradeType) (bot : Option String)
    (r : PendingTradeRequest) :
    requestMatches u ty bot r = true ↔
      r.username = u ∧ r.type = ty ∧ r.bot = bot ∧ r.status = Status.pending := by
  simp [requestMatches, and_assoc]

theorem updateOneStatus_spec (u : Option String) (ty : TradeType) (bot : Option String)
    (success : Bool) (now : Nat) (reqs : List PendingTradeRequest) :
    ((∀ r ∈ reqs, requestMatches u ty bot r = false) ∧
        updateOneStatus u ty bot success now reqs = reqs) ∨
    (∃ i r, reqs[i]? = some r ∧ requestMatches u ty bot r = true ∧
        (∀ j r', j < i → reqs[j]? = some r' → requestMatches u ty bot r' = false) ∧
        updateOneStatus u ty bot success now reqs = reqs.set i (resolve success now r)) := by
  induction reqs with
  | nil => left; exact ⟨by simp, rfl⟩
  | cons a rest ih =>
    by_cases ha : requestMatches u ty bot a = true
    · right
      refine ⟨0, a, by simp, ha, ?_, ?_⟩
      · intro j r' hj; exact absurd hj (Nat.not_lt_zero j)
      · simp [updateOneStatus, ha]
    · have ha' : requestMatches u ty bot a = false := by simpa using ha
      rcases ih with ⟨hno, heq⟩ | ⟨i, r, hi, hr, hfirst, heq⟩
      · left
        refine ⟨?_, ?_⟩
        · intro x hx
          rcases List.mem_cons.1 hx with rfl | hx
          · exact ha'
          · exact hno x hx
        · simp [updateOneStatus, ha', heq]
      · right
        refine ⟨i + 1, r, by simpa using hi, hr, ?_, ?_⟩
        · intro j r' hj hjr
          cases j with
          | zero =>
            simp at hjr
            subst hjr
            exact ha'
          | succ k =>
            have hk : k < i := Nat.lt_of_succ_lt_succ hj
            exact hfirst k r' hk (by simpa using hjr)
        · simp [updateOneStatus, ha', heq]

/-! ## Completing a withdrawal with `success = false` -/

/-- C6: when a pending withdraw request matching `(u, bot)` exists, a `completeWithdraw`
report with `success = false` sets the status of exactly one matching request (the first
one) to failed, leaves every other request, every balance entry, every user and the
history as they were. -/
theorem completeWithdraw_failure_effect (db : Db) (body : CompleteBody) (now : Nat)
    (hs : body.success = false)
    (h : ∃ r ∈ db.pendingTradeRequests, r.username = body.username ∧
      r.type = TradeType.withdraw ∧ r.bot = body.bot ∧ r.status = Status.pending) :
    ∃ i r, db.pendingTradeRequests[i]? = some r ∧
      (r.username = body.username ∧ r.type = TradeType.withdraw ∧ r.bot = body.bot ∧
        r.status = Status.pending) ∧
      (completeWithdraw db body now).1.pendingTradeRequests =
        db.pendingTradeRequests.set i
          { r with status := Status.failed, completedAt := some now } ∧
      (∀ j, j ≠ i → (completeWithdraw db body now).1.pendingTradeRequests[j]? =
        db.pendingTradeRequests[j]?) ∧
      (completeWithdraw db body now).1.userPetBalances = db.userPetBalances ∧
      (completeWithdraw db body now).1.tradeHistory = db.tradeHistory ∧
      (completeWithdraw db body now).1.users = db.users := by
  have hdb : (completeWithdraw db body now).1 =
      { db with pendingTradeRequests :=
          (updateOneStatus body.username TradeType.withdraw body.bot false now
            db.pendingTradeRequests) } := by
    simp [completeWithdraw, hs]
  rcases updateOneStatus_spec body.username TradeType.withdraw body.bot false now
      db.pendingTradeRequests with ⟨hno, _⟩ | ⟨i, r, hi, hr, _, heq⟩
  · obtain ⟨r, hr, hm⟩ := h
    have := hno r hr
    rw [(requestMatches_iff _ _ _ r).2 hm] at this
    cases this
  · refine ⟨i, r, hi, (requestMatches_iff _ _ _ r).1 hr, ?_, ?_, ?_, ?_, ?_⟩
    · rw [hdb]
      exact heq
    · intro j hj
      rw [hdb]
      show (updateOneStatus body.username TradeType.withdraw body.bot false now
        db.pendingTradeRequests)[j]? = _
      rw [heq, List.getElem?_set_ne (Ne.symm hj)]
    · rw [hdb]
    · rw [hdb]
    · rw [hdb]

/-! ## Rejecting a withdrawal -/

/-- C5: when some item of `D` names a pet whose balance entry for the user is absent or
has `count ≤ 0`, `submitWithdraw` answers with the insufficient-pets error, naming such an
item of `D` and listing the user's available pets, and returns the database it was
given: no request is inserted and no balance, user or history record is touched. -/
theorem submitWithdraw_rejects_insufficient (db : Db) (body : SubmitBody) (D : List Pet)
    (now : Nat) (hd : body.petDetails = some D)
    (h : ∃ pet ∈ D, findOneBalance db.userPetBalances body.username pet.name = none ∨
      ∃ b, findOneBalance db.userPetBalances body.username pet.name = some b ∧ b.count ≤ 0) :
    ∃ pet ∈ D,
      (findOneBalance db.userPetBalances body.username pet.name = none ∨
        ∃ b, findOneBalance db.userPetBalances body.username pet.name = some b ∧
          b.count ≤ 0) ∧
      submitWithdraw db body now =
        (db, Response.insufficientPets pet.name (getUserAvailablePets db body.username)) := by
  have hins : ∀ pet : Pet, insufficient db.userPetBalances body.username pet = true ↔
      (findOneBalance db.userPetBalances body.username pet.name = none ∨
        ∃ b, findOneBalance db.userPetBalances body.username pet.name = some b ∧
          b.count ≤ 0) := by
    intro pet
    unfold insufficient
    cases hf : findOneBalance db.userPetBalances body.username pet.name <;> simp
  cases hfind : D.find? (insufficient db.userPetBalances body.username) with
  | none =>
    obtain ⟨pet, hmem, hpet⟩ := h
    have := List.find?_eq_none.1 hfind pet hmem
    exact absurd ((hins pet).2 hpet) this
  | some pet =>
    refine ⟨pet, List.mem_of_find?_eq_some hfind, (hins pet).1 (List.find?_some hfind), ?_⟩
    simp [submitWithdraw, hd, hfind]

/-! ## Listing the pending requests of a bot -/

/-- C7: `listPending db b` holds exactly the requests of the collection whose status is
pending and whose bot is `b` (each as often as it is stored), ordered by `createdAt`
ascending. -/
theorem listPending_spec (db : Db) (b : Option String) :
    (listPending db b).Perm
      (db.pendingTradeRequests.filter
        (fun r => decide (r.status = Status.pending ∧ r.bot = b))) ∧
    (∀ r, r ∈ listPending db b ↔
      r ∈ db.pendingTradeRequests ∧ r.status = Status.pending ∧ r.bot = b) ∧
    List.Pairwise (fun x y => x.createdAt ≤ y.createdAt) (listPending db b) := by
  have hfilter : db.pendingTradeRequests.filter
        (fun r => decide (r.bot = b) && decide (r.status = Status.pending)) =
      db.pendingTradeRequests.filter
        (fun r => decide (r.status = Status.pending ∧ r.bot = b)) := by
    apply List.filter_congr
    intro r _
    by_cases h1 : r.bot = b <;> by_cases h2 : r.status = Status.pending <;> simp [h1, h2]
  have hperm : (listPending db b).Perm
      (db.pendingTradeRequests.filter
        (fun r => decide (r.status = Status.pending ∧ r.bot = b))) := by
    unfold listPending
    rw [hfilter]
    exact List.perm_insertionSort _ _
  refine ⟨hperm, ?_, ?_⟩
  · intro r
    rw [hperm.mem_iff, List.mem_filter]
    simp
  · haveI : IsTotal PendingTradeRequest (fun x y => x.createdAt ≤ y.createdAt) :=
      ⟨fun x y => Nat.le_total x.createdAt y.createdAt⟩
    haveI : IsTrans PendingTradeRequest (fun x y => x.createdAt ≤ y.createdAt) :=
      ⟨fun _ _ _ hxy hyz => Nat.le_trans hxy hyz⟩
    exact List.sorted_insertionSort
      (fun (x y : PendingTradeRequest) => x.createdAt ≤ y.createdAt) _


/-! ## Duplicate completion reports -/

/-- C10: with no pending deposit request matching `(username, bot)`, a successful
`completeDeposit` report leaves the request collection as it is and still credits every
item of `D` and appends one history record; sending the same report a second time
credits every item of `D` a second time and leaves two history records. -/
theorem completeDeposit_without_pending_request (db : Db) (body : CompleteBody)
    (D : List Pet) (now now' : Nat)
    (hs : body.success = true) (hd : body.petDetails = some D)
    (h : ∀ r ∈ db.pendingTradeRequests, ¬ (r.username = body.username ∧
      r.type = TradeType.deposit ∧ r.bot = body.bot ∧ r.status = Status.pending)) :
    (completeDeposit db body now).1.pendingTradeRequests = db.pendingTradeRequests ∧
    (∀ p, balanceOf (completeDeposit db body now).1.userPetBalances body.username p =
      balanceOf db.userPetBalances body.username p + (units p D : Int)) ∧
    (completeDeposit db body now).1.tradeHistory = db.tradeHistory ++
      [{ username := body.username, type := TradeType.deposit, petCounts := body.petCounts,
         petDetails := D, bot := body.bot, status := Status.completed, timestamp := now }] ∧
    (completeDeposit (completeDeposit db body now).1 body now').1.pendingTradeRequests =
      db.pendingTradeRequests ∧
    (∀ p, balanceOf (completeDeposit (completeDeposit db body now).1 body now').1.userPetBalances
        body.username p =
      balanceOf db.userPetBalances body.username p + 2 * (units p D : Int)) ∧
    (completeDeposit (completeDeposit db body now).1 body now').1.tradeHistory =
      db.tradeHistory ++
      [{ username := body.username, type := TradeType.deposit, petCounts := body.petCounts,
         petDetails := D, bot := body.bot, status := Status.completed, timestamp := now },
       { username := body.username, type := TradeType.deposit, petCounts := body.petCounts,
         petDetails := D, bot := body.bot, status := Status.completed, timestamp := now' }] := by
  have hno : ∀ r ∈ db.pendingTradeRequests,
      requestMatches body.username TradeType.deposit body.bot r = false := by
    intro r hr
    cases hc : requestMatches body.username TradeType.deposit body.bot r with
    | false => rfl
    | true => exact absurd ((requestMatches_iff _ _ _ r).1 hc) (h r hr)
  have hshape : ∀ (s : Db) (t : Nat), (completeDeposit s body t).1 =
      { s with
        pendingTradeRequests :=
          (updateOneStatus body.username TradeType.deposit body.bot true t
            s.pendingTradeRequests),
        userPetBalances := adjustAll true 1 body.username s.userPetBalances D,
        tradeHistory := s.tradeHistory ++
          [{ username := body.username, type := TradeType.deposit,
             petCounts := body.petCounts, petDetails := D, bot := body.bot,
             status := Status.completed, timestamp := t }] } := by
    intro s t
    simp [completeDeposit, hs, hd]
  have h1 : (completeDeposit db body now).1.pendingTradeRequests = db.pendingTradeRequests := by
    rw [hshape]
    exact updateOneStatus_of_no_match _ _ _ _ _ _ hno
  have h2 : (completeDeposit (completeDeposit db body now).1 body now').1.pendingTradeRequests =
      db.pendingTradeRequests := by
    rw [hshape (completeDeposit db body now).1 now']
    show updateOneStatus _ _ _ _ _ (completeDeposit db body now).1.pendingTradeRequests = _
    rw [h1]
    exact updateOneStatus_of_no_match _ _ _ _ _ _ hno
  refine ⟨h1, ?_, ?_, h2, ?_, ?_⟩
  · intro p
    rw [hshape]
    show balanceOf (adjustAll true 1 body.username db.userPetBalances D) body.username p = _
    rw [balanceOf_adjustAll_upsert]
    simp
  · rw [hshape]
  · intro p
    rw [hshape (completeDeposit db body now).1 now', hshape db now]
    show balanceOf (adjustAll true 1 body.username
      (adjustAll true 1 body.username db.userPetBalances D) D) body.username p = _
    rw [balanceOf_adjustAll_upsert, balanceOf_adjustAll_upsert]
    simp
    ring
  · rw [hshape (completeDeposit db body now).1 now', hshape db now]
    simp


/-! ## The request state machine -/

theorem completeDeposit_requests (db : Db) (body : CompleteBody) (now : Nat) :
    (completeDeposit db body now).1.pendingTradeRequests =
      updateOneStatus body.username TradeType.deposit body.bot body.success now
        db.pendingTradeRequests := by
  unfold completeDeposit
  split <;> rfl

theorem completeWithdraw_requests (db : Db) (body : CompleteBody) (now : Nat) :
    (completeWithdraw db body now).1.pendingTradeRequests =
      updateOneStatus body.username TradeType.withdraw body.bot body.success now
        db.pendingTradeRequests := by
  unfold completeWithdraw
  split <;> rfl

theorem submitDeposit_requests (db : Db) (body : SubmitBody) (now : Nat) :
    (submitDeposit db body now).1.pendingTradeRequests = db.pendingTradeRequests ∨
    ∃ r, r.status = Status.pending ∧ r.type = TradeType.deposit ∧
      r.username = body.username ∧
      (submitDeposit db body now).1.pendingTradeRequests = db.pendingTradeRequests ++ [r] := by
  unfold submitDeposit
  split
  · left; rfl
  · right; exact ⟨_, rfl, rfl, rfl, rfl⟩

theorem submitWithdraw_requests (db : Db) (body : SubmitBody) (now : Nat) :
    (submitWithdraw db body now).1.pendingTradeRequests = db.pendingTradeRequests ∨
    ∃ r, r.status = Status.pending ∧ r.type = TradeType.withdraw ∧
      r.username = body.username ∧
      (submitWithdraw db body now).1.pendingTradeRequests = db.pendingTradeRequests ++ [r] := by
  unfold submitWithdraw
  split
  · left; rfl
  · split
    · left; rfl
    · right; exact ⟨_, rfl, rfl, rfl, rfl⟩

theorem updateOneStatus_at (u : Option String) (ty : TradeType) (bot : Option String)
    (success : Bool) (now : Nat) (reqs : List PendingTradeRequest) (i : Nat)
    (r : PendingTradeRequest) (hi : reqs[i]? = some r) :
    (updateOneStatus u ty bot success now reqs)[i]? = some r ∨
    (requestMatches u ty bot r = true ∧
      (updateOneStatus u ty bot success now reqs)[i]? = some (resolve success now r)) := by
  rcases updateOneStatus_spec u ty bot success now reqs with ⟨_, heq⟩ | ⟨j, r', hj, hr', _, heq⟩
  · left; rw [heq]; exact hi
  · by_cases hij : j = i
    · subst hij
      have : r' = r := by rw [hj] at hi; exact Option.some.inj hi
      subst this
      right
      refine ⟨hr', ?_⟩
      rw [heq]
      have hlt : j < reqs.length := by
        rcases Nat.lt_or_ge j reqs.length with hlt | hge
        · exact hlt
        · rw [List.getElem?_eq_none hge] at hj; cases hj
      simp [hlt]
    · left
      rw [heq, List.getElem?_set_ne hij]
      exact hi

theorem resolve_status_ne_pending (success : Bool) (now : Nat) (r : PendingTradeRequest) :
    (resolve success now r).status ≠ Status.pending := by
  cases success <;> simp [resolve]

theorem step_request_at (db : Db) (op : Op) (i : Nat) (r : PendingTradeRequest)
    (hi : db.pendingTradeRequests[i]? = some r) :
    (step db op).pendingTradeRequests[i]? = some r ∨
    (r.status = Status.pending ∧
      ∃ r', (step db op).pendingTradeRequests[i]? = some r' ∧ r'.status ≠ Status.pending) := by
  have hlt : i < db.pendingTradeRequests.length := by
    rcases Nat.lt_or_ge i db.pendingTradeRequests.length with hlt | hge
    · exact hlt
    · rw [List.getElem?_eq_none hge] at hi; cases hi
  have happ : ∀ x : PendingTradeRequest, (db.pendingTradeRequests ++ [x])[i]? = some r := by
    intro x
    rw [List.getElem?_append_left hlt]
    exact hi
  have hupd : ∀ (u : Option String) (ty : TradeType) (bot : Option String) (success : Bool)
      (now : Nat),
      (updateOneStatus u ty bot success now db.pendingTradeRequests)[i]? = some r ∨
      (r.status = Status.pending ∧
        ∃ r', (updateOneStatus u ty bot success now db.pendingTradeRequests)[i]? = some r' ∧
          r'.status ≠ Status.pending) := by
    intro u ty bot success now
    rcases updateOneStatus_at u ty bot success now db.pendingTradeRequests i r hi with h | ⟨hm, h⟩
    · left; exact h
    · right
      exact ⟨((requestMatches_iff u ty bot r).1 hm).2.2.2, _, h,
        resolve_status_ne_pending success now r⟩
  cases op with
  | submitDeposit body now =>
    left
    show (submitDeposit db body now).1.pendingTradeRequests[i]? = some r
    rcases submitDeposit_requests db body now with h | ⟨x, _, _, _, h⟩
    · rw [h]; exact hi
    · rw [h]; exact happ x
  | submitWithdraw body now =>
    left
    show (submitWithdraw db body now).1.pendingTradeRequests[i]? = some r
    rcases submitWithdraw_requests db body now with h | ⟨x, _, _, _, h⟩
    · rw [h]; exact hi
    · rw [h]; exact happ x
  | completeDeposit body now =>
    show (completeDeposit db body now).1.pendingTradeRequests[i]? = some r ∨
      (r.status = Status.pending ∧
        ∃ r', (completeDeposit db body now).1.pendingTradeRequests[i]? = some r' ∧
          r'.status ≠ Status.pending)
    rw [completeDeposit_requests]
    exact hupd _ _ _ _ _
  | completeWithdraw body now =>
    show (completeWithdraw db body now).1.pendingTradeRequests[i]? = some r ∨
      (r.status = Status.pending ∧
        ∃ r', (completeWithdraw db body now).1.pendingTradeRequests[i]? = some r' ∧
          r'.status ≠ Status.pending)
    rw [completeWithdraw_requests]
    exact hupd _ _ _ _ _

theorem statusChanges_trace_of_resolved (ops : List Op) (db : Db) (i : Nat)
    (r : PendingTradeRequest) (hi : db.pendingTradeRequests[i]? = some r)
    (hr : r.status ≠ Status.pending) :
    statusChanges i (trace db ops) = 0 := by
  induction ops generalizing db with
  | nil => rfl
  | cons op ops ih =>
    have hnext : (step db op).pendingTradeRequests[i]? = some r := by
      rcases step_request_at db op i r hi with h | ⟨hp, _⟩
      · exact h
      · exact absurd hp hr
    have htr : trace db (op :: ops) = db :: trace (step db op) ops := rfl
    have hch : statusChanged i db (step db op) = false := by
      simp [statusChanged, hi, hnext]
    cases hrest : trace (step db op) ops with
    | nil => cases ops <;> simp [trace] at hrest
    | cons b rest =>
      have hb : b = step db op := by
        cases ops <;> simp [trace] at hrest <;> exact hrest.1.symm
      rw [htr, hrest]
      have := ih (step db op) hnext
      rw [hrest] at this
      subst hb
      simp [statusChanges, hch, this]

theorem statusChanges_trace_le_one (ops : List Op) (db : Db) (i : Nat) :
    statusChanges i (trace db ops) ≤ 1 := by
  induction ops generalizing db with
  | nil => simp [trace, statusChanges]
  | cons op ops ih =>
    have htr : trace db (op :: ops) = db :: trace (step db op) ops := rfl
    cases hrest : trace (step db op) ops with
    | nil => cases ops <;> simp [trace] at hrest
    | cons b rest =>
      have hb : b = step db op := by
        cases ops <;> simp [trace] at hrest <;> exact hrest.1.symm
      subst hb
      rw [htr, hrest]
      have hih := ih (step db op)
      rw [hrest] at hih
      cases hi : db.pendingTradeRequests[i]? with
      | none =>
        have hch : statusChanged i db (step db op) = false := by
          simp [statusChanged, hi]
        simpa [statusChanges, hch] using hih
      | some r =>
        rcases step_request_at db op i r hi with h | ⟨_, r', h, hr'⟩
        · have hch : statusChanged i db (step db op) = false := by
            simp [statusChanged, hi, h]
          simpa [statusChanges, hch] using hih
        · have hz := statusChanges_trace_of_resolved ops (step db op) i r' h hr'
          rw [hrest] at hz
          simp only [statusChanges, hz, Nat.add_zero]
          split <;> simp

/-- C8: the life cycle of a pending request. A submission adds at most one request and
that request is pending; no operation changes anything in a request whose status is
completed or failed; a completion report changes at most one request, which was pending
and matches the report in username, type and bot, and sets it to completed on success
and to failed otherwise; and over any sequence of operations from any state the status
of the request at any position changes at most once. -/
theorem request_state_machine :
    (∀ (db : Db) (body : SubmitBody) (now : Nat),
      (submitDeposit db body now).1.pendingTradeRequests = db.pendingTradeRequests ∨
      ∃ r, r.status = Status.pending ∧
        (submitDeposit db body now).1.pendingTradeRequests = db.pendingTradeRequests ++ [r]) ∧
    (∀ (db : Db) (body : SubmitBody) (now : Nat),
      (submitWithdraw db body now).1.pendingTradeRequests = db.pendingTradeRequests ∨
      ∃ r, r.status = Status.pending ∧
        (submitWithdraw db body now).1.pendingTradeRequests = db.pendingTradeRequests ++ [r]) ∧
    (∀ (db : Db) (op : Op) (i : Nat) (r : PendingTradeRequest),
      db.pendingTradeRequests[i]? = some r → r.status ≠ Status.pending →
        (step db op).pendingTradeRequests[i]? = some r) ∧
    (∀ (db : Db) (body : CompleteBody) (now : Nat),
      (completeDeposit db body now).1.pendingTradeRequests = db.pendingTradeRequests ∨
      ∃ i r, db.pendingTradeRequests[i]? = some r ∧
        (r.username = body.username ∧ r.type = TradeType.deposit ∧ r.bot = body.bot ∧
          r.status = Status.pending) ∧
        (completeDeposit db body now).1.pendingTradeRequests =
          db.pendingTradeRequests.set i
            { r with status := if body.success then Status.completed else Status.failed,
                     completedAt := some now }) ∧
    (∀ (db : Db) (body : CompleteBody) (now : Nat),
      (completeWithdraw db body now).1.pendingTradeRequests = db.pendingTradeRequests ∨
      ∃ i r, db.pendingTradeRequests[i]? = some r ∧
        (r.username = body.username ∧ r.type = TradeType.withdraw ∧ r.bot = body.bot ∧
          r.status = Status.pending) ∧
        (completeWithdraw db body now).1.pendingTradeRequests =
          db.pendingTradeRequests.set i
            { r with status := if body.success then Status.completed else Status.failed,
                     completedAt := some now }) ∧
    (∀ (db : Db) (ops : List Op) (i : Nat), statusChanges i (trace db ops) ≤ 1) := by
  refine ⟨?_, ?_, ?_, ?_, ?_, ?_⟩
  · intro db body now
    rcases submitDeposit_requests db body now with h | ⟨r, hr, _, _, h⟩
    · exact Or.inl h
    · exact Or.inr ⟨r, hr, h⟩
  · intro db body now
    rcases submitWithdraw_requests db body now with h | ⟨r, hr, _, _, h⟩
    · exact Or.inl h
    · exact Or.inr ⟨r, hr, h⟩
  · intro db op i r hi hr
    rcases step_request_at db op i r hi with h | ⟨hp, _⟩
    · exact h
    · exact absurd hp hr
  · intro db body now
    rw [completeDeposit_requests]
    rcases updateOneStatus_spec body.username TradeType.deposit body.bot body.success now
      db.pendingTradeRequests with ⟨_, heq⟩ | ⟨i, r, hi, hr, _, heq⟩
    · exact Or.inl heq
    · exact Or.inr ⟨i, r, hi, (requestMatches_iff _ _ _ r).1 hr, heq⟩
  · intro db body now
    rw [completeWithdraw_requests]
    rcases updateOneStatus_spec body.username TradeType.withdraw body.bot body.success now
      db.pendingTradeRequests with ⟨_, heq⟩ | ⟨i, r, hi, hr, _, heq⟩
    · exact Or.inl heq
    · exact Or.inr ⟨i, r, hi, (requestMatches_iff _ _ _ r).1 hr, heq⟩
  · intro db ops i
    exact statusChanges_trace_le_one ops db i


/-! ## Completing a withdrawal with `success = true` -/

theorem completeWithdraw_success_effect (db : Db) (body : CompleteBody) (D : List Pet)
    (now : Nat) (hs : body.success = true) (hd : body.petDetails = some D) :
    (∀ p, balanceOf (completeWithdraw db body now).1.userPetBalances body.username p =
      balanceOf db.userPetBalances body.username p -
        (if (findOneBalance db.userPetBalances body.username p).isSome = true
          then (units p D : Int) else 0)) ∧
    (∀ u p, (findOneBalance (completeWithdraw db body now).1.userPetBalances u p).isSome =
      (findOneBalance db.userPetBalances u p).isSome) ∧
    (completeWithdraw db body now).1.tradeHistory = db.tradeHistory ++
      [{ username := body.username, type := TradeType.withdraw, petCounts := body.petCounts,
         petDetails := D, bot := body.bot, status := Status.completed, timestamp := now }] := by
  have hshape : (completeWithdraw db body now).1 =
      { db with
        pendingTradeRequests :=
          (updateOneStatus body.username TradeType.withdraw body.bot true now
            db.pendingTradeRequests),
        userPetBalances := adjustAll false (-1) body.username db.userPetBalances D,
        tradeHistory := db.tradeHistory ++
          [{ username := body.username, type := TradeType.withdraw,
             petCounts := body.petCounts, petDetails := D, bot := body.bot,
             status := Status.completed, timestamp := now }] } := by
    simp [completeWithdraw, hs, hd]
  refine ⟨?_, ?_, ?_⟩
  · intro p
    rw [hshape]
    show balanceOf (adjustAll false (-1) body.username db.userPetBalances D) body.username p = _
    rw [balanceOf_adjustAll_noUpsert]
    by_cases hp : (findOneBalance db.userPetBalances body.username p).isSome = true
    · simp [hp]
      ring
    · simp [hp]
  · intro u p
    rw [hshape]
    exact isSome_findOne_adjustAll_noUpsert (-1) body.username db.userPetBalances D u p
  · rw [hshape]

/-- C4, where the code departs from it: on the empty database a successful
`completeWithdraw` for alice with `petDetails = [Dragon]` appends the withdraw record but
creates no balance entry, so alice's Dragon balance stays 0 instead of becoming -1. -/
theorem completeWithdraw_absent_entry_not_created :
    (completeWithdraw emptyDb
        { username := some "alice", success := true, petCounts := none,
          petDetails := some [{ name := "Dragon" }], bot := some "B1" } 5).1
      = { users := [], userPetBalances := [],
          tradeHistory := [{ username := some "alice", type := TradeType.withdraw,
                             petCounts := none, petDetails := [{ name := "Dragon" }],
                             bot := some "B1", status := Status.completed, timestamp := 5 }],
          pendingTradeRequests := [] } ∧
    balanceOf (completeWithdraw emptyDb
        { username := some "alice", success := true, petCounts := none,
          petDetails := some [{ name := "Dragon" }], bot := some "B1" } 5).1.userPetBalances
      (some "alice") "Dragon"
      ≠ balanceOf emptyDb.userPetBalances (some "alice") "Dragon"
          - (units "Dragon" [{ name := "Dragon" }] : Int) := by
  decide

/-- C1, where the code departs from it: the state reached from the empty database by one
successful `completeWithdraw` for alice with `petDetails = [Dragon]` has Dragon balance 0,
no deposit unit and one withdraw unit in the history, so the ledger equation fails. -/
theorem ledger_drift_after_withdraw_of_absent_entry :
    ¬ ledgerConsistent
      (run emptyDb [Op.completeWithdraw
        { username := some "alice", success := true, petCounts := none,
          petDetails := some [{ name := "Dragon" }], bot := some "B1" } 5])
      (some "alice") "Dragon" := by
  unfold ledgerConsistent
  decide

/-- C2, where the code departs from it: alice holds one Dragon; `submitWithdraw` with
`petDetails = [Dragon, Dragon]` is accepted because each item only sees a count above 0,
and the completion that follows decrements twice, leaving the count at -1. -/
theorem negative_balance_after_checked_withdrawal :
    (∀ e ∈ ({ emptyDb with userPetBalances :=
        [{ username := some "alice", petName := "Dragon", count := 1 }] } : Db).userPetBalances,
      0 ≤ e.count) ∧
    (submitWithdraw { emptyDb with userPetBalances :=
        [{ username := some "alice", petName := "Dragon", count := 1 }] }
      { username := some "alice", petCounts := none,
        petDetails := some [{ name := "Dragon" }, { name := "Dragon" }], bot := some "B1" } 7)
      = ({ users := [],
           userPetBalances := [{ username := some "alice", petName := "Dragon", count := 1 }],
           tradeHistory := [],
           pendingTradeRequests :=
             [{ id := 0, username := some "alice", type := TradeType.withdraw,
                bot := some "B1", petCounts := none,
                petDetails := [{ name := "Dragon" }, { name := "Dragon" }],
                status := Status.pending, createdAt := 7, completedAt := none }] },
         Response.withdrawCreated 7) ∧
    (completeWithdraw
      (submitWithdraw { emptyDb with userPetBalances :=
          [{ username := some "alice", petName := "Dragon", count := 1 }] }
        { username := some "alice", petCounts := none,
          petDetails := some [{ name := "Dragon" }, { name := "Dragon" }],
          bot := some "B1" } 7).1
      { username := some "alice", success := true, petCounts := none,
        petDetails := some [{ name := "Dragon" }, { name := "Dragon" }],
        bot := some "B1" } 8).1.userPetBalances
      = [{ username := some "alice", petName := "Dragon", count := -1 }] := by
  decide

/-! ## Validation of the username -/

theorem submitDeposit_rejects_missing_username (db : Db) (body : SubmitBody) (now : Nat)
    (h : body.username = none ∨ body.username = some "") :
    submitDeposit db body now = (db, Response.usernameRequired) := by
  rcases h with h | h <;> simp [submitDeposit, h, falsy]

/-- C9, where the code departs from it: `submitWithdraw` never looks at the username, so
a body whose username is missing (or empty) and whose `petDetails` is empty is accepted
and a pending request is inserted. -/
theorem submitWithdraw_accepts_missing_username :
    submitWithdraw emptyDb
        { username := none, petCounts := none, petDetails := some [], bot := some "B1" } 7
      = ({ users := [], userPetBalances := [], tradeHistory := [],
           pendingTradeRequests :=
             [{ id := 0, username := none, type := TradeType.withdraw, bot := some "B1",
                petCounts := none, petDetails := [], status := Status.pending,
                createdAt := 7, completedAt := none }] },
         Response.withdrawCreated 7) ∧
    submitWithdraw emptyDb
        { username := some "", petCounts := none, petDetails := some [], bot := some "B1" } 7
      = ({ users := [], userPetBalances := [], tradeHistory := [],
           pendingTradeRequests :=
             [{ id := 0, username := some "", type := TradeType.withdraw, bot := some "B1",
                petCounts := none, petDetails := [], status := Status.pending,
                createdAt := 7, completedAt := none }] },
         Response.withdrawCreated 7) := by
  decide


/-! ## What holds of the ledger equation and of checked withdrawals -/

theorem historyUnits_append (hist : List TradeHistoryRecord) (rec : TradeHistoryRecord)
    (u : Option String) (ty : TradeType) (p : String) :
    historyUnits (hist ++ [rec]) u ty p =
      historyUnits hist u ty p +
        (if rec.username = u ∧ rec.type = ty then units p rec.petDetails else 0) := by
  unfold historyUnits
  by_cases h : rec.username = u ∧ rec.type = ty
  · simp [List.filter_append, List.filter_cons, h]
  · have hb : (decide (rec.username = u) && decide (rec.type = ty)) = false := by
      simpa using h
    simp [List.filter_append, List.filter_cons, hb, h]

theorem submitDeposit_ledger (db : Db) (body : SubmitBody) (now : Nat) :
    (submitDeposit db body now).1.userPetBalances = db.userPetBalances ∧
    (submitDeposit db body now).1.tradeHistory = db.tradeHistory := by
  unfold submitDeposit
  split <;> exact ⟨rfl, rfl⟩

theorem submitWithdraw_ledger (db : Db) (body : SubmitBody) (now : Nat) :
    (submitWithdraw db body now).1.userPetBalances = db.userPetBalances ∧
    (submitWithdraw db body now).1.tradeHistory = db.tradeHistory := by
  unfold submitWithdraw
  split
  · exact ⟨rfl, rfl⟩
  · split <;> exact ⟨rfl, rfl⟩

theorem completeDeposit_ledger (db : Db) (body : CompleteBody) (now : Nat) (u : Option String)
    (p : String) (h : ledgerConsistent db u p) :
    ledgerConsistent (completeDeposit db body now).1 u p := by
  unfold ledgerConsistent at h ⊢
  unfold completeDeposit
  split
  · rename_i D hs hd
    show balanceOf (adjustAll true 1 body.username db.userPetBalances D) u p =
      (historyUnits (db.tradeHistory ++ _) u TradeType.deposit p : Int) -
        (historyUnits (db.tradeHistory ++ _) u TradeType.withdraw p : Int)
    rw [balanceOf_adjustAll_upsert, historyUnits_append, historyUnits_append, h]
    by_cases hu : u = body.username
    · subst hu
      simp
      ring
    · have hu' : ¬ body.username = u := fun e => hu e.symm
      simp [hu, hu']
  · exact h

theorem completeWithdraw_ledger (db : Db) (body : CompleteBody) (now : Nat)
    (u : Option String) (p : String) (h : ledgerConsistent db u p)
    (hpresent : ∀ D, body.success = true → body.petDetails = some D → body.username = u →
      0 < units p D → (findOneBalance db.userPetBalances u p).isSome = true) :
    ledgerConsistent (completeWithdraw db body now).1 u p := by
  unfold ledgerConsistent at h ⊢
  unfold completeWithdraw
  split
  · rename_i D hs hd
    show balanceOf (adjustAll false (-1) body.username db.userPetBalances D) u p =
      (historyUnits (db.tradeHistory ++ _) u TradeType.deposit p : Int) -
        (historyUnits (db.tradeHistory ++ _) u TradeType.withdraw p : Int)
    rw [balanceOf_adjustAll_noUpsert, historyUnits_append, historyUnits_append, h]
    by_cases hu : u = body.username
    · subst hu
      by_cases hz : units p D = 0
      · simp [hz]
      · have hp := hpresent D hs hd rfl (Nat.pos_of_ne_zero hz)
        simp [hp]
        ring
    · have hu' : ¬ body.username = u := fun e => hu e.symm
      simp [hu, hu']
  · exact h

theorem ledgerConsistent_step (db : Db) (op : Op) (u : Option String) (p : String)
    (h : ledgerConsistent db u p)
    (hpresent : ∀ body now D, op = Op.completeWithdraw body now → body.success = true →
      body.petDetails = some D → body.username = u → 0 < units p D →
        (findOneBalance db.userPetBalances u p).isSome = true) :
    ledgerConsistent (step db op) u p := by
  cases op with
  | submitDeposit body now =>
    unfold ledgerConsistent at h ⊢
    show balanceOf (submitDeposit db body now).1.userPetBalances u p =
      (historyUnits (submitDeposit db body now).1.tradeHistory u TradeType.deposit p : Int) -
        (historyUnits (submitDeposit db body now).1.tradeHistory u TradeType.withdraw p : Int)
    rw [(submitDeposit_ledger db body now).1, (submitDeposit_ledger db body now).2]
    exact h
  | submitWithdraw body now =>
    unfold ledgerConsistent at h ⊢
    show balanceOf (submitWithdraw db body now).1.userPetBalances u p =
      (historyUnits (submitWithdraw db body now).1.tradeHistory u TradeType.deposit p : Int) -
        (historyUnits (submitWithdraw db body now).1.tradeHistory u TradeType.withdraw p : Int)
    rw [(submitWithdraw_ledger db body now).1, (submitWithdraw_ledger db body now).2]
    exact h
  | completeDeposit body now => exact completeDeposit_ledger db body now u p h
  | completeWithdraw body now =>
    exact completeWithdraw_ledger db body now u p h
      (fun D hs hd hu hpos => hpresent body now D rfl hs hd hu hpos)

theorem ledgerConsistent_emptyDb (u : Option String) (p : String) :
    ledgerConsistent emptyDb u p := by
  simp [ledgerConsistent, emptyDb, balanceOf, findOneBalance, historyUnits]

theorem units_le_one_of_nodup (p : String) (D : List Pet) (h : (D.map Pet.name).Nodup) :
    units p D ≤ 1 := by
  induction D with
  | nil => simp [units]
  | cons pet rest ih =>
    rw [List.map_cons, List.nodup_cons] at h
    rw [units_cons]
    by_cases hp : pet.name = p
    · have hz : units p rest = 0 := by
        unfold units
        rw [List.countP_eq_zero]
        intro x hx
        simp only [decide_eq_true_eq]
        intro hxp
        exact h.1 (List.mem_map.2 ⟨x, hx, hxp.trans hp.symm⟩)
      simp [hp, hz]
    · simpa [hp] using ih h.2

theorem units_pos_iff (p : String) (D : List Pet) :
    0 < units p D ↔ ∃ pet ∈ D, pet.name = p := by
  unfold units
  rw [List.countP_pos_iff]
  simp

theorem checked_withdrawal_nonneg_of_distinct (db : Db) (body : SubmitBody)
    (cbody : CompleteBody) (D : List Pet) (now now' : Nat)
    (hd : body.petDetails = some D) (hcu : cbody.username = body.username)
    (hcd : cbody.petDetails = some D) (hcs : cbody.success = true)
    (hdistinct : (D.map Pet.name).Nodup)
    (hnonneg : ∀ p, 0 ≤ balanceOf db.userPetBalances body.username p)
    (haccepted : (submitWithdraw db body now).2 = Response.withdrawCreated now) :
    ∀ p, 0 ≤ balanceOf (completeWithdraw (submitWithdraw db body now).1 cbody
      now').1.userPetBalances body.username p := by
  intro p
  have hfind : D.find? (insufficient db.userPetBalances body.username) = none := by
    cases hf : D.find? (insufficient db.userPetBalances body.username) with
    | none => rfl
    | some pet => simp [submitWithdraw, hd, hf] at haccepted
  have hbal := (submitWithdraw_ledger db body now).1
  have heff := (completeWithdraw_success_effect (submitWithdraw db body now).1 cbody D now'
    hcs hcd).1 p
  rw [hcu, hbal] at heff
  rw [heff]
  by_cases hz : units p D = 0
  · have := hnonneg p
    split <;> simp [hz] <;> exact this
  · obtain ⟨pet, hmem, hname⟩ := (units_pos_iff p D).1 (Nat.pos_of_ne_zero hz)
    have hsuff := List.find?_eq_none.1 hfind pet hmem
    have hle := units_le_one_of_nodup p D hdistinct
    have hone : (units p D : Int) ≤ 1 := by exact_mod_cast hle
    subst hname
    unfold insufficient at hsuff
    unfold balanceOf
    cases hf : findOneBalance db.userPetBalances body.username pet.name with
    | none => simp [hf] at hsuff
    | some b =>
      simp [hf] at hsuff
      simp
      omega

theorem ledger_lower_bound_step (db : Db) (op : Op) (u : Option String) (p : String)
    (h : (historyUnits db.tradeHistory u TradeType.deposit p : Int)
        - (historyUnits db.tradeHistory u TradeType.withdraw p : Int)
      ≤ balanceOf db.userPetBalances u p) :
    (historyUnits (step db op).tradeHistory u TradeType.deposit p : Int)
        - (historyUnits (step db op).tradeHistory u TradeType.withdraw p : Int)
      ≤ balanceOf (step db op).userPetBalances u p := by
  cases op with
  | submitDeposit body now =>
    show (historyUnits (submitDeposit db body now).1.tradeHistory u TradeType.deposit p : Int)
        - (historyUnits (submitDeposit db body now).1.tradeHistory u TradeType.withdraw p : Int)
      ≤ balanceOf (submitDeposit db body now).1.userPetBalances u p
    rw [(submitDeposit_ledger db body now).1, (submitDeposit_ledger db body now).2]
    exact h
  | submitWithdraw body now =>
    show (historyUnits (submitWithdraw db body now).1.tradeHistory u TradeType.deposit p : Int)
        - (historyUnits (submitWithdraw db body now).1.tradeHistory u TradeType.withdraw p : Int)
      ≤ balanceOf (submitWithdraw db body now).1.userPetBalances u p
    rw [(submitWithdraw_ledger db body now).1, (submitWithdraw_ledger db body now).2]
    exact h
  | completeDeposit body now =>
    show (historyUnits (completeDeposit db body now).1.tradeHistory u TradeType.deposit p : Int)
        - (historyUnits (completeDeposit db body now).1.tradeHistory u TradeType.withdraw p : Int)
      ≤ balanceOf (completeDeposit db body now).1.userPetBalances u p
    unfold completeDeposit
    split
    · rename_i D hs hd
      show (historyUnits (db.tradeHistory ++ _) u TradeType.deposit p : Int) -
          (historyUnits (db.tradeHistory ++ _) u TradeType.withdraw p : Int) ≤
        balanceOf (adjustAll true 1 body.username db.userPetBalances D) u p
      rw [balanceOf_adjustAll_upsert, historyUnits_append, historyUnits_append]
      by_cases hu : u = body.username
      · subst hu
        simp
        omega
      · have hu' : ¬ body.username = u := fun e => hu e.symm
        simp [hu, hu']
        omega
    · exact h
  | completeWithdraw body now =>
    show (historyUnits (completeWithdraw db body now).1.tradeHistory u TradeType.deposit p : Int)
        - (historyUnits (completeWithdraw db body now).1.tradeHistory u TradeType.withdraw p : Int)
      ≤ balanceOf (completeWithdraw db body now).1.userPetBalances u p
    unfold completeWithdraw
    split
    · rename_i D hs hd
      show (historyUnits (db.tradeHistory ++ _) u TradeType.deposit p : Int) -
          (historyUnits (db.tradeHistory ++ _) u TradeType.withdraw p : Int) ≤
        balanceOf (adjustAll false (-1) body.username db.userPetBalances D) u p
      rw [balanceOf_adjustAll_noUpsert, historyUnits_append, historyUnits_append]
      by_cases hu : u = body.username
      · subst hu
        by_cases hp : (findOneBalance db.userPetBalances body.username p).isSome = true
        · simp [hp]
          omega
        · simp [hp]
          omega
      · have hu' : ¬ body.username = u := fun e => hu e.symm
        simp [hu, hu']
        omega
    · exact h

theorem ledger_lower_bound_run (ops : List Op) (db : Db) (u : Option String) (p : String)
    (h : (historyUnits db.tradeHistory u TradeType.deposit p : Int)
        - (historyUnits db.tradeHistory u TradeType.withdraw p : Int)
      ≤ balanceOf db.userPetBalances u p) :
    (historyUnits (run db ops).tradeHistory u TradeType.deposit p : Int)
        - (historyUnits (run db ops).tradeHistory u TradeType.withdraw p : Int)
      ≤ balanceOf (run db ops).userPetBalances u p := by
  induction ops generalizing db with
  | nil => exact h
  | cons op ops ih =>
    show (historyUnits (run (step db op) ops).tradeHistory u TradeType.deposit p : Int)
        - (historyUnits (run (step db op) ops).tradeHistory u TradeType.withdraw p : Int)
      ≤ balanceOf (run (step db op) ops).userPetBalances u p
    exact ih (step db op) (ledger_lower_bound_step db op u p h)

/-! ## The statements at concrete inputs -/

theorem completeDeposit_success_effect_witness :
    balanceOf (completeDeposit emptyDb
        { username := some "alice", success := true, petCounts := none,
          petDetails := some [{ name := "A" }, { name := "A" }, { name := "B" }],
          bot := some "B1" } 3).1.userPetBalances (some "alice") "A" = 2 ∧
    balanceOf (completeDeposit emptyDb
        { username := some "alice", success := true, petCounts := none,
          petDetails := some [{ name := "A" }, { name := "A" }, { name := "B" }],
          bot := some "B1" } 3).1.userPetBalances (some "alice") "B" = 1 ∧
    (completeDeposit emptyDb
        { username := some "alice", success := true, petCounts := none,
          petDetails := some [{ name := "A" }, { name := "A" }, { name := "B" }],
          bot := some "B1" } 3).1.tradeHistory =
      [{ username := some "alice", type := TradeType.deposit, petCounts := none,
         petDetails := [{ name := "A" }, { name := "A" }, { name := "B" }],
         bot := some "B1", status := Status.completed, timestamp := 3 }] :=
  ⟨((completeDeposit_success_effect emptyDb (some "alice") (some "B1") none
      [{ name := "A" }, { name := "A" }, { name := "B" }] 3).1 "A").trans (by decide),
   ((completeDeposit_success_effect emptyDb (some "alice") (some "B1") none
      [{ name := "A" }, { name := "A" }, { name := "B" }] 3).1 "B").trans (by decide),
   (completeDeposit_success_effect emptyDb (some "alice") (some "B1") none
      [{ name := "A" }, { name := "A" }, { name := "B" }] 3).2.2.2⟩

theorem submitWithdraw_rejects_insufficient_witness :
    ∃ pet ∈ [({ name := "Dragon" } : Pet)],
      (findOneBalance emptyDb.userPetBalances (some "alice") pet.name = none ∨
        ∃ b, findOneBalance emptyDb.userPetBalances (some "alice") pet.name = some b ∧
          b.count ≤ 0) ∧
      submitWithdraw emptyDb
          { username := some "alice", petCounts := none,
            petDetails := some [{ name := "Dragon" }], bot := some "B1" } 7 =
        (emptyDb, Response.insufficientPets pet.name
          (getUserAvailablePets emptyDb (some "alice"))) :=
  submitWithdraw_rejects_insufficient emptyDb
    { username := some "alice", petCounts := none,
      petDetails := some [{ name := "Dragon" }], bot := some "B1" }
    [{ name := "Dragon" }] 7 rfl
    ⟨{ name := "Dragon" }, List.mem_singleton.2 rfl, Or.inl rfl⟩

theorem completeWithdraw_failure_effect_witness :
    ∃ (i : Nat) (r : PendingTradeRequest),
      ({ emptyDb with pendingTradeRequests :=
          [{ id := 0, username := some "alice", type := TradeType.withdraw,
             bot := some "B1", petCounts := none, petDetails := [{ name := "Dragon" }],
             status := Status.pending, createdAt := 7, completedAt := none }] }
        : Db).pendingTradeRequests[i]? = some r ∧
      (completeWithdraw
        { emptyDb with pendingTradeRequests :=
          [{ id := 0, username := some "alice", type := TradeType.withdraw,
             bot := some "B1", petCounts := none, petDetails := [{ name := "Dragon" }],
             status := Status.pending, createdAt := 7, completedAt := none }] }
        { username := some "alice", success := false, petCounts := none,
          petDetails := some [{ name := "Dragon" }], bot := some "B1" } 9).1.pendingTradeRequests =
        ([{ id := 0, username := some "alice", type := TradeType.withdraw,
             bot := some "B1", petCounts := none, petDetails := [{ name := "Dragon" }],
             status := Status.pending, createdAt := 7, completedAt := none }]
            : List PendingTradeRequest).set i
            { r with status := Status.failed, completedAt := some 9 } := by
  obtain ⟨i, r, hi, _, hset, _⟩ := completeWithdraw_failure_effect
    { emptyDb with pendingTradeRequests :=
      [{ id := 0, username := some "alice", type := TradeType.withdraw,
         bot := some "B1", petCounts := none, petDetails := [{ name := "Dragon" }],
         status := Status.pending, createdAt := 7, completedAt := none }] }
    { username := some "alice", success := false, petCounts := none,
      petDetails := some [{ name := "Dragon" }], bot := some "B1" } 9 rfl
    ⟨_, List.mem_singleton.2 rfl, rfl, rfl, rfl, rfl⟩
  exact ⟨i, r, hi, hset⟩

theorem request_state_machine_witness :
    (step
      { emptyDb with pendingTradeRequests :=
        [{ id := 0, username := some "alice", type := TradeType.deposit,
           bot := some "B1", petCounts := none, petDetails := [{ name := "Dragon" }],
           status := Status.completed, createdAt := 7, completedAt := some 8 }] }
      (Op.completeDeposit
        { username := some "alice", success := false, petCounts := none,
          petDetails := none, bot := some "B1" } 9)).pendingTradeRequests[0]? =
      some { id := 0, username := some "alice", type := TradeType.deposit,
             bot := some "B1", petCounts := none, petDetails := [{ name := "Dragon" }],
             status := Status.completed, createdAt := 7, completedAt := some 8 } :=
  request_state_machine.2.2.1
    { emptyDb with pendingTradeRequests :=
      [{ id := 0, username := some "alice", type := TradeType.deposit,
         bot := some "B1", petCounts := none, petDetails := [{ name := "Dragon" }],
         status := Status.completed, createdAt := 7, completedAt := some 8 }] }
    (Op.completeDeposit
      { username := some "alice", success := false, petCounts := none,
        petDetails := none, bot := some "B1" } 9)
    0 _ rfl (by decide)

theorem completeDeposit_without_pending_request_witness :
    balanceOf (completeDeposit (completeDeposit
        { emptyDb with pendingTradeRequests :=
          [{ id := 0, username := some "alice", type := TradeType.deposit,
             bot := some "B1", petCounts := none, petDetails := [{ name := "Dragon" }],
             status := Status.completed, createdAt := 7, completedAt := some 8 }] }
        { username := some "alice", success := true, petCounts := none,
          petDetails := some [{ name := "Dragon" }], bot := some "B1" } 8).1
        { username := some "alice", success := true, petCounts := none,
          petDetails := some [{ name := "Dragon" }], bot := some "B1" } 9).1.userPetBalances
      (some "alice") "Dragon" = 2 :=
  ((completeDeposit_without_pending_request
      { emptyDb with pendingTradeRequests :=
        [{ id := 0, username := some "alice", type := TradeType.deposit,
           bot := some "B1", petCounts := none, petDetails := [{ name := "Dragon" }],
           status := Status.completed, createdAt := 7, completedAt := some 8 }] }
      { username := some "alice", success := true, petCounts := none,
        petDetails := some [{ name := "Dragon" }], bot := some "B1" }
      [{ name := "Dragon" }] 8 9 rfl rfl (by decide)).2.2.2.2.1 "Dragon").trans (by decide)

end RobloxBot
